import Mathlib

/-!
# The edge of the graph editor (`src/edge.h`, `src/edge.cpp`)

A shallow embedding of the class `Edge` and of the few Qt value types it
computes with.

* `qreal` (a C++ `double`) is modelled by an arbitrary linearly ordered field `R`
  with a floor function.  The definitions are computable for a computable `R`
  such as `ℚ`.
* The width and height that `boundingRect` stores, and the right and bottom edges
  read back from the rectangle, pass through a rounding function `fl`, the
  rounding of an exact result to a `qreal`: whether the rectangle reaches the
  larger coordinate depends on it.  `roundDouble` is the rounding of binary64.
  Elsewhere arithmetic is exact.
* The functions of `<cmath>` that the edge calls (`sqrt` through
  `QLineF::length`, `acos`, `sin`, `cos`) are a parameter, `CMath R`.
  `CMath.real` is their mathematical meaning over `ℝ`.
* `mapFromItem(node, 0, 0)` is the position of a node in the coordinates of the
  edge; it is the field `Node.pos`.
* The painter and the observer are modelled by the sequence of calls the edge
  issues on them (`PaintCmd`, `HandlerAction`).
-/

namespace GraphEditor

/-! ## Qt value types -/

/-- Point with `qreal` coordinates (`QPointF`). -/
structure QPointF (R : Type) where
  x : R
  y : R
deriving DecidableEq

/-- Componentwise sum, `operator+` of `QPointF`. -/
instance QPointF.instAdd {R : Type} [Add R] : Add (QPointF R) :=
  ⟨fun a b => ⟨a.x + b.x, a.y + b.y⟩⟩

/-- Functions of the C math library used by the edge. -/
structure CMath (R : Type) where
  sqrt : R → R
  acos : R → R
  sin : R → R
  cos : R → R

/-- Mathematical meaning of the C math library over the real numbers. -/
noncomputable def CMath.real : CMath ℝ where
  sqrt := Real.sqrt
  acos := Real.arccos
  sin := Real.sin
  cos := Real.cos

/-- Line segment between two points (`QLineF`). -/
structure QLineF (R : Type) where
  p1 : QPointF R
  p2 : QPointF R
deriving DecidableEq

/-- Rectangle given by its top-left corner, width and height
(`QRectF(left, top, width, height)`). -/
structure QRectF (R : Type) where
  x : R
  y : R
  w : R
  h : R
deriving DecidableEq

/-- Colours of `Qt::GlobalColor` that the edge uses. -/
inductive GlobalColor where
  | black
  | darkGreen
  | yellow
deriving DecidableEq

/-- Line styles of `Qt::PenStyle`. -/
inductive PenStyle where
  | NoPen
  | SolidLine
  | DashLine
deriving DecidableEq

/-- Cap styles of `Qt::PenCapStyle`. -/
inductive PenCapStyle where
  | FlatCap
  | SquareCap
  | RoundCap
deriving DecidableEq

/-- Join styles of `Qt::PenJoinStyle`. -/
inductive PenJoinStyle where
  | MiterJoin
  | BevelJoin
  | RoundJoin
deriving DecidableEq

/-- Pen as built by `QPen(color, width, style, cap, join)`. -/
structure QPen (R : Type) where
  color : GlobalColor
  width : R
  style : PenStyle
  cap : PenCapStyle
  join : PenJoinStyle
deriving DecidableEq

/-- Buttons of `Qt::MouseButton` reported by `event->button()`. -/
inductive MouseButton where
  | NoButton
  | LeftButton
  | RightButton
  | MiddleButton
deriving DecidableEq

section Geometry

variable {R : Type} [LinearOrderedField R] [FloorRing R]

namespace QLineF

/-- First x coordinate, `QLineF::x1`. -/
def x1 (l : QLineF R) : R := l.p1.x

/-- First y coordinate, `QLineF::y1`. -/
def y1 (l : QLineF R) : R := l.p1.y

/-- Second x coordinate, `QLineF::x2`. -/
def x2 (l : QLineF R) : R := l.p2.x

/-- Second y coordinate, `QLineF::y2`. -/
def y2 (l : QLineF R) : R := l.p2.y

/-- Horizontal component, `QLineF::dx`. -/
def dx (l : QLineF R) : R := l.p2.x - l.p1.x

/-- Vertical component, `QLineF::dy`. -/
def dy (l : QLineF R) : R := l.p2.y - l.p1.y

/-- Euclidean length, `QLineF::length`: the square root of `dx*dx + dy*dy`. -/
def length (m : CMath R) (l : QLineF R) : R := m.sqrt (l.dx * l.dx + l.dy * l.dy)

end QLineF

namespace QRectF

/-- Null rectangle built by the default constructor `QRectF()`. -/
def null : QRectF R := ⟨0, 0, 0, 0⟩

/-- Left edge, `QRectF::left`. -/
def left (r : QRectF R) : R := r.x

/-- Right edge, `QRectF::right`: the sum `x + w`, rounded to a `qreal` by `fl`. -/
def right (fl : R → R) (r : QRectF R) : R := fl (r.x + r.w)

/-- Top edge, `QRectF::top`. -/
def top (r : QRectF R) : R := r.y

/-- Bottom edge, `QRectF::bottom`: the sum `y + h`, rounded to a `qreal` by
`fl`. -/
def bottom (fl : R → R) (r : QRectF R) : R := fl (r.y + r.h)

/-- Geometric containment, edges inclusive: the point lies in the closed box
`[left, right] × [top, bottom]`. -/
def Covers (fl : R → R) (r : QRectF R) (p : QPointF R) : Prop :=
  r.left ≤ p.x ∧ p.x ≤ r.right fl ∧ r.top ≤ p.y ∧ p.y ≤ r.bottom fl

end QRectF

/-- Qt's `qFuzzyCompare(double p1, double p2)`:
`qAbs(p1 - p2) * 1000000000000. <= qMin(qAbs(p1), qAbs(p2))`. -/
def qFuzzyCompare (p1 p2 : R) : Bool :=
  decide (|p1 - p2| * 1000000000000 ≤ min |p1| |p2|)

/-- Smallest value of a 32-bit `int`. -/
def INT_MIN : Int := -2147483648

/-- Largest value of a 32-bit `int`. -/
def INT_MAX : Int := 2147483647

/-- Conversion of a `qreal` to `int` as C++ performs it on initialisation
(`int x = <qreal>`): the fractional part is discarded (truncation toward zero).
When the truncated value does not fit into `int` the behaviour is undefined:
`none`. -/
def qrealToInt (v : R) : Option Int :=
  let t : Int := if 0 ≤ v then ⌊v⌋ else ⌈v⌉
  if INT_MIN ≤ t ∧ t ≤ INT_MAX then some t else none

/-- Nearest integer, a tie going to the even one. -/
def roundHalfEven (r : R) : Int :=
  let f : Int := ⌊r⌋
  if r - f < 1 / 2 then f
  else if 1 / 2 < r - f then f + 1
  else if f % 2 = 0 then f else f + 1

/-- Rounding of an exact result to a `double` (IEEE 754 binary64, round to
nearest, ties to even): the nearest multiple of the spacing `2 ^ (e - 52)` of
the binade `2 ^ e <= |q| < 2 ^ (e + 1)` of `q`, the exponent `e` not taken below
-1022 (gradual underflow).  The exponent is not bounded above: a result beyond
the largest finite `double`, which binary64 replaces by an infinity, is rounded
like any other. -/
def roundDouble (q : R) : R :=
  let e : Int := max (Int.log 2 |q|) (-1022)
  let ulp : R := (2 : R) ^ (e - 52)
  (roundHalfEven (q / ulp) : R) * ulp

/-- Constant `Pi` of `edge.cpp`. -/
def Pi : R := 3.14159265358979323846264338327950288419717

/-- Constant `TwoPi` of `edge.cpp`. -/
def TwoPi : R := 2.0 * Pi

end Geometry

/-! ## The edge -/

/-- Node as the edge sees it: `pos` is `mapFromItem(node, 0, 0)`, the origin of
the node in the coordinates of the edge. -/
structure Node (R : Type) where
  pos : QPointF R
deriving DecidableEq

/-- Data members of `Edge`.  A null `source` or `destination` pointer is `none`.
The observer is not part of the state: its answers are arguments of the
operations that ask it. -/
structure Edge (R : Type) where
  cost : Int
  source : Option (Node R)
  destination : Option (Node R)
  isInTree : Bool
  sourcePoint : QPointF R
  destinationPoint : QPointF R
  pen : QPen R
deriving DecidableEq

/-- Calls issued on the `QPainter` by `Edge::paint`. -/
inductive PaintCmd (R : Type) where
  | setPen (pen : QPen R)
  | drawLine (line : QLineF R)
  | drawText (pos : QPointF R) (text : String)
  | setBrush (color : GlobalColor)
  | drawPolygon (points : List (QPointF R))
deriving DecidableEq

/-- Calls issued by the mouse handlers of the edge: the two observer callbacks
(with the edge passed as `this`), the redraw request `update()` and the
forwarding of the event to `QGraphicsItem`. -/
inductive HandlerAction (R : Type) where
  | removeEdge (edge : Edge R)
  | displayCostDialog (edge : Edge R)
  | update
  | baseMousePressEvent (button : MouseButton)
  | baseMouseReleaseEvent (button : MouseButton)
deriving DecidableEq

section Operations

variable {R : Type} [LinearOrderedField R] [FloorRing R]

namespace Edge

/-- Constant `lineWidth` of `edge.h`. -/
def lineWidth : Int := 2

/-- Pen assigned by the constructor:
`QPen(Qt::black, lineWidth, Qt::SolidLine, Qt::RoundCap, Qt::RoundJoin)`. -/
def constructorPen : QPen R :=
  ⟨GlobalColor.black, (lineWidth : Int), PenStyle.SolidLine, PenCapStyle.RoundCap,
    PenJoinStyle.RoundJoin⟩

/-- Pen built in `paint` for an edge of the tree:
`QPen(Qt::darkGreen, lineWidth, Qt::SolidLine, Qt::RoundCap, Qt::RoundJoin)`. -/
def treePen : QPen R :=
  ⟨GlobalColor.darkGreen, (lineWidth : Int), PenStyle.SolidLine, PenCapStyle.RoundCap,
    PenJoinStyle.RoundJoin⟩

/-- Body of `Edge::adjust` (edge.cpp:27-44).  `prepareGeometryChange()` only
notifies the scene and changes no member of the edge. -/
def adjust (m : CMath R) (e : Edge R) : Edge R :=
  match e.source, e.destination with
  | some source, some destination =>
    let line : QLineF R := ⟨source.pos, destination.pos⟩
    let length := line.length m
    if length > 20 then
      { e with sourcePoint := line.p1, destinationPoint := line.p2 }
    else
      { e with sourcePoint := line.p1, destinationPoint := line.p1 }
  | _, _ => e

/-- Members as the initialiser list of the constructor leaves them
(edge.cpp:14-22), for non-null nodes (the constructor dereferences both): the
cached points are `QPointF()`, the origin.  The registration `addEdge(this)`
changes the nodes only. -/
def initial (sourceNode destinationNode : Node R) (costValue : Int) : Edge R :=
  { cost := costValue
    source := some sourceNode
    destination := some destinationNode
    isInTree := false
    sourcePoint := ⟨0, 0⟩
    destinationPoint := ⟨0, 0⟩
    pen := constructorPen }

/-- The constructor `Edge::Edge` (edge.cpp:13-25): the initialisers, then
`adjust()`. -/
def create (m : CMath R) (sourceNode destinationNode : Node R) (costValue : Int) : Edge R :=
  adjust m (initial sourceNode destinationNode costValue)

/-- Body of `Edge::boundingRect` (edge.cpp:56-71).  The differences `rx - lx` and
`by - ty` passed to the constructor of `QRectF` are `qreal` values: the exact
differences rounded by `fl`. -/
def boundingRect (fl : R → R) (e : Edge R) : QRectF R :=
  match e.source, e.destination with
  | some source, some destination =>
    let line : QLineF R := ⟨source.pos, destination.pos⟩
    let x1 := line.p1.x
    let x2 := line.p2.x
    let y1 := line.p1.y
    let y2 := line.p2.y
    let lx := min x1 x2
    let rx := max x1 x2
    let ty := min y1 y2
    let by_ := max y1 y2
    ⟨lx, ty, fl (rx - lx), fl (by_ - ty)⟩
  | _, _ => QRectF.null

/-- Direction angle of the arrow (edge.cpp:123-125):
`acos(line.dx() / line.length())`, replaced by `TwoPi - angle` when
`line.dy() >= 0`. -/
def directionAngle (m : CMath R) (line : QLineF R) : R :=
  let angle := m.acos (line.dx / line.length m)
  if line.dy ≥ 0 then TwoPi - angle else angle

/-- Size `arrowSize` of the arrow (edge.cpp:126). -/
def arrowSize : R := 15

/-- First wing tip `destArrowP1` (edge.cpp:128-129). -/
def destArrowP1 (m : CMath R) (destinationPoint : QPointF R) (angle : R) : QPointF R :=
  destinationPoint + ⟨m.sin (angle - Pi / 3) * arrowSize, m.cos (angle - Pi / 3) * arrowSize⟩

/-- Second wing tip `destArrowP2` (edge.cpp:130-131). -/
def destArrowP2 (m : CMath R) (destinationPoint : QPointF R) (angle : R) : QPointF R :=
  destinationPoint +
    ⟨m.sin (angle - Pi + Pi / 3) * arrowSize, m.cos (angle - Pi + Pi / 3) * arrowSize⟩

/-- Vertices of the polygon drawn for the arrow (edge.cpp:134):
`QPolygonF() << line.p2() << destArrowP1 << destArrowP2`. -/
def arrowPolygon (m : CMath R) (e : Edge R) : List (QPointF R) :=
  let line : QLineF R := ⟨e.sourcePoint, e.destinationPoint⟩
  let angle := directionAngle m line
  [line.p2, destArrowP1 m e.destinationPoint angle, destArrowP2 m e.destinationPoint angle]

/-- Body of `Edge::paint` (edge.cpp:96-136): the calls issued on the painter, in
order.  `isOriented` is the answer of `observer->isOriented()`.  The result is
`none` when a conversion to `int` is undefined. -/
def paint (m : CMath R) (isOriented : Bool) (e : Edge R) : Option (List (PaintCmd R)) :=
  match e.source, e.destination with
  | some _, some _ =>
    let line : QLineF R := ⟨e.sourcePoint, e.destinationPoint⟩
    if qFuzzyCompare (line.length m) 0 then
      some []
    else
      let stroke : PaintCmd R :=
        if !e.isInTree then PaintCmd.setPen e.pen else PaintCmd.setPen treePen
      match qrealToInt (line.x1 + line.x2), qrealToInt (line.y1 + line.y2) with
      | some x, some y =>
        let midpoint : QPointF R := ⟨((Int.tdiv x 2 : Int) : R), ((Int.tdiv y 2 : Int) : R)⟩
        let arrow : List (PaintCmd R) :=
          if isOriented then
            [PaintCmd.setBrush GlobalColor.yellow, PaintCmd.drawPolygon (arrowPolygon m e)]
          else
            []
        some ([stroke, PaintCmd.drawLine line, PaintCmd.drawText midpoint (toString e.cost)]
          ++ arrow)
      | _, _ => none
  | _, _ => some []

/-- Body of `Edge::mousePressEvent` (edge.cpp:138-151): the calls issued, in
order. -/
def mousePressEvent (e : Edge R) (button : MouseButton) : List (HandlerAction R) :=
  (match button with
    | MouseButton.RightButton => [HandlerAction.removeEdge e]
    | MouseButton.LeftButton => [HandlerAction.displayCostDialog e]
    | _ => [])
  ++ [HandlerAction.update, HandlerAction.baseMousePressEvent button]

/-- Body of `Edge::mouseReleaseEvent` (edge.cpp:153-157): the calls issued, in
order. -/
def mouseReleaseEvent (_e : Edge R) (button : MouseButton) : List (HandlerAction R) :=
  [HandlerAction.update, HandlerAction.baseMouseReleaseEvent button]

end Edge

end Operations

/-! ## Vocabulary of the properties -/

section Vocabulary

variable {R : Type}

/-- Observer callbacks among the calls of a handler, in the order issued. -/
def observerCalls (calls : List (HandlerAction R)) : List (HandlerAction R) :=
  calls.filter fun a =>
    match a with
    | HandlerAction.removeEdge _ => true
    | HandlerAction.displayCostDialog _ => true
    | _ => false

/-- Calls issued after the first `removeEdge` callback (empty when there is
none). -/
def afterRemoveEdge : List (HandlerAction R) → List (HandlerAction R)
  | [] => []
  | HandlerAction.removeEdge _ :: rest => rest
  | _ :: rest => afterRemoveEdge rest

/-- Assignment to the member `isInTree`.  The source has no setter: the flag is
written by a collaborator of the edge. -/
def Edge.setInTree (e : Edge R) (inTree : Bool) : Edge R := { e with isInTree := inTree }

/-- The same painter call with the colour of the pen replaced, when the call
sets a pen; every other call is unchanged. -/
def PaintCmd.withStroke (c : GlobalColor) : PaintCmd R → PaintCmd R
  | PaintCmd.setPen pen => PaintCmd.setPen { pen with color := c }
  | cmd => cmd

end Vocabulary

section SpecWording

variable {R : Type} [LinearOrderedField R]

/-- The extent from `lo` to `hi` is computed without rounding error: the
difference `hi - lo` is a `qreal`, and so is `hi` (as every coordinate of a node
is). -/
def ExactSpan (fl : R → R) (lo hi : R) : Prop :=
  fl (hi - lo) = hi - lo ∧ fl hi = hi

/-- Second wing tip as the specification words it, for comparison with
`Edge.destArrowP2`: `destinationPoint + (15 sin(angle + pi/3), 15 cos(angle + pi/3))`,
where `angle` is the computed direction angle and `pi` the value read for the
symbol π. -/
def specWingTip2 (m : CMath R) (pi : R) (e : Edge R) : QPointF R :=
  let angle := Edge.directionAngle m ⟨e.sourcePoint, e.destinationPoint⟩
  e.destinationPoint + ⟨15 * m.sin (angle + pi / 3), 15 * m.cos (angle + pi / 3)⟩

/-- Arrowhead polygon as the specification words it, for comparison with
`Edge.arrowPolygon`: the destination endpoint, the wing tip
`destinationPoint + (15 sin(angle - pi/3), 15 cos(angle - pi/3))` and the wing
tip `specWingTip2`. -/
def specArrowPolygon (m : CMath R) (pi : R) (e : Edge R) : List (QPointF R) :=
  let angle := Edge.directionAngle m ⟨e.sourcePoint, e.destinationPoint⟩
  [e.destinationPoint,
    e.destinationPoint + ⟨15 * m.sin (angle - pi / 3), 15 * m.cos (angle - pi / 3)⟩,
    specWingTip2 m pi e]

end SpecWording

/-! ## Sample edges -/

/-- Edge between nodes at (3, 4) and (1, 9), rational coordinates, before
`adjust`. -/
def sampleEdgeQ : Edge ℚ := Edge.initial ⟨⟨3, 4⟩⟩ ⟨⟨1, 9⟩⟩ 1

/-- Edge between nodes at (0, 0) and (30, 40), at distance 50, before `adjust`. -/
noncomputable def farEdge : Edge ℝ := Edge.initial ⟨⟨0, 0⟩⟩ ⟨⟨30, 40⟩⟩ 1

/-- Edge between nodes at (0, 0) and (12, 16), at distance exactly 20, before
`adjust`. -/
noncomputable def thresholdEdge : Edge ℝ := Edge.initial ⟨⟨0, 0⟩⟩ ⟨⟨12, 16⟩⟩ 1

/-- The `double` nearest to 0.1, the value of the literal `0.1`. -/
noncomputable def tenthDouble : ℝ := 3602879701896397 / 36028797018963968

/-- Edge between nodes at (-10, 0) and (0.1, 30), at distance above 20, before
`adjust`. -/
noncomputable def roundingEdge : Edge ℝ := Edge.initial ⟨⟨-10, 0⟩⟩ ⟨⟨tenthDouble, 30⟩⟩ 1

/-- Edge between nodes at (0.1, 0) and (-10, 0), at distance below 20, before
`adjust`. -/
noncomputable def nearRoundingEdge : Edge ℝ := Edge.initial ⟨⟨tenthDouble, 0⟩⟩ ⟨⟨-10, 0⟩⟩ 1

/-- Constructed edge of cost 1 from the node at (0, 0) to the node at (30, 0):
horizontal, destination to the right. -/
noncomputable def rightEdge : Edge ℝ := Edge.create CMath.real ⟨⟨0, 0⟩⟩ ⟨⟨30, 0⟩⟩ 1

end GraphEditor

namespace GraphEditor

section HandlerTheorems

variable {R : Type}

/-! ## Mouse handler -/

/-- C2: a press of the left button calls `displayCostDialog` exactly once, with
the edge itself, and never `removeEdge`; a press of the right button calls
`removeEdge` exactly once, with the edge itself, and never `displayCostDialog`. -/
theorem mousePress_observer_calls (e : Edge R) :
    observerCalls (e.mousePressEvent MouseButton.LeftButton)
        = [HandlerAction.displayCostDialog e]
      ∧ observerCalls (e.mousePressEvent MouseButton.RightButton)
        = [HandlerAction.removeEdge e] :=
  ⟨rfl, rfl⟩

/-- C3, refuted: on the sample edge a press of the right button calls `update()`
and forwards the event to the base class after `removeEdge` has returned. -/
theorem rightPress_acts_after_removeEdge :
    afterRemoveEdge (sampleEdgeQ.mousePressEvent MouseButton.RightButton)
        = [HandlerAction.update, HandlerAction.baseMousePressEvent MouseButton.RightButton]
      ∧ afterRemoveEdge (sampleEdgeQ.mousePressEvent MouseButton.RightButton) ≠ [] :=
  ⟨rfl, by simp [Edge.mousePressEvent, afterRemoveEdge]⟩

/-- C3, amended: on a press of the right button `removeEdge(this)` is the first
call of the handler and its only observer callback; it is followed by the
redraw request `update()` and by the forwarding of the event to the base class,
in this order, and by nothing else. -/
theorem rightPress_call_sequence (e : Edge R) :
    e.mousePressEvent MouseButton.RightButton
      = [HandlerAction.removeEdge e, HandlerAction.update,
          HandlerAction.baseMousePressEvent MouseButton.RightButton] :=
  rfl

end HandlerTheorems

section GeometryTheorems

variable {R : Type} [LinearOrderedField R]

/-! ## Geometry -/

/-- With both nodes present `adjust` caches the two node positions when the
length of the segment between them exceeds 20. -/
theorem adjust_of_far (m : CMath R) (e : Edge R) (s d : Node R)
    (hs : e.source = some s) (hd : e.destination = some d)
    (h : 20 < (QLineF.mk s.pos d.pos).length m) :
    e.adjust m = { e with sourcePoint := s.pos, destinationPoint := d.pos } := by
  simp [Edge.adjust, hs, hd, h]

/-- With both nodes present `adjust` caches the position of the source node
twice when the length of the segment between them is at most 20. -/
theorem adjust_of_near (m : CMath R) (e : Edge R) (s d : Node R)
    (hs : e.source = some s) (hd : e.destination = some d)
    (h : (QLineF.mk s.pos d.pos).length m ≤ 20) :
    e.adjust m = { e with sourcePoint := s.pos, destinationPoint := s.pos } := by
  simp [Edge.adjust, hs, hd, not_lt.mpr h]

/-- The nodes of an edge are not changed by `adjust`. -/
theorem adjust_nodes (m : CMath R) (e : Edge R) :
    (e.adjust m).source = e.source ∧ (e.adjust m).destination = e.destination := by
  unfold Edge.adjust
  split
  · dsimp only
    split <;> exact ⟨rfl, rfl⟩
  · exact ⟨rfl, rfl⟩

/-- With both nodes present the bounding rectangle has its corner at the minima
of the node coordinates and the rounded differences of maxima and minima as its
width and height. -/
theorem boundingRect_of_nodes (fl : R → R) (e : Edge R) (s d : Node R)
    (hs : e.source = some s) (hd : e.destination = some d) :
    e.boundingRect fl =
      ⟨min s.pos.x d.pos.x, min s.pos.y d.pos.y,
        fl (max s.pos.x d.pos.x - min s.pos.x d.pos.x),
        fl (max s.pos.y d.pos.y - min s.pos.y d.pos.y)⟩ := by
  simp [Edge.boundingRect, hs, hd]

/-- A sum `lo + fl (hi - lo)` rounds to `hi` when the extent is exact. -/
theorem exactSpan_reaches (fl : R → R) (lo hi : R) (h : ExactSpan fl lo hi) :
    fl (lo + fl (hi - lo)) = hi := by
  rw [h.1, add_sub_cancel, h.2]

/-- The box built from the minima and the rounded extents of two points covers
both of them when the extents are exact. -/
theorem minmax_box_covers (fl : R → R) (p q : QPointF R)
    (hx : ExactSpan fl (min p.x q.x) (max p.x q.x))
    (hy : ExactSpan fl (min p.y q.y) (max p.y q.y)) :
    QRectF.Covers fl ⟨min p.x q.x, min p.y q.y, fl (max p.x q.x - min p.x q.x),
        fl (max p.y q.y - min p.y q.y)⟩ p
      ∧ QRectF.Covers fl ⟨min p.x q.x, min p.y q.y, fl (max p.x q.x - min p.x q.x),
        fl (max p.y q.y - min p.y q.y)⟩ q := by
  simp [QRectF.Covers, QRectF.left, QRectF.right, QRectF.top, QRectF.bottom,
    exactSpan_reaches fl _ _ hx, exactSpan_reaches fl _ _ hy]

/-- C4, amended: with both nodes present at (x1, y1) and (x2, y2),
`boundingRect` has its top-left corner at (min x, min y), the `qreal` difference
max x - min x as width and the `qreal` difference max y - min y as height; its
left and top edges are min x and min y, so no node position lies before them;
and when both differences are computed without rounding error its right and
bottom edges are max x and max y and it covers both node positions. -/
theorem boundingRect_min_max (fl : R → R) (e : Edge R) (s d : Node R)
    (hs : e.source = some s) (hd : e.destination = some d) :
    e.boundingRect fl =
        ⟨min s.pos.x d.pos.x, min s.pos.y d.pos.y,
          fl (max s.pos.x d.pos.x - min s.pos.x d.pos.x),
          fl (max s.pos.y d.pos.y - min s.pos.y d.pos.y)⟩
      ∧ (e.boundingRect fl).left = min s.pos.x d.pos.x
      ∧ (e.boundingRect fl).top = min s.pos.y d.pos.y
      ∧ ((e.boundingRect fl).left ≤ s.pos.x ∧ (e.boundingRect fl).left ≤ d.pos.x
        ∧ (e.boundingRect fl).top ≤ s.pos.y ∧ (e.boundingRect fl).top ≤ d.pos.y)
      ∧ (ExactSpan fl (min s.pos.x d.pos.x) (max s.pos.x d.pos.x) →
          ExactSpan fl (min s.pos.y d.pos.y) (max s.pos.y d.pos.y) →
          (e.boundingRect fl).right fl = max s.pos.x d.pos.x
            ∧ (e.boundingRect fl).bottom fl = max s.pos.y d.pos.y
            ∧ (e.boundingRect fl).Covers fl s.pos
            ∧ (e.boundingRect fl).Covers fl d.pos) := by
  rw [boundingRect_of_nodes fl e s d hs hd]
  refine ⟨rfl, rfl, rfl,
    ⟨min_le_left _ _, min_le_right _ _, min_le_left _ _, min_le_right _ _⟩, ?_⟩
  intro hx hy
  exact ⟨exactSpan_reaches fl _ _ hx, exactSpan_reaches fl _ _ hy,
    (minmax_box_covers fl s.pos d.pos hx hy).1, (minmax_box_covers fl s.pos d.pos hx hy).2⟩

/-- C10, amended: with both nodes present, after `adjust` (and no move of the
nodes) `boundingRect` returns the same rectangle, neither cached point lies
before its left or top edge, and both cached points lie in it, edges inclusive,
when its width and height are computed without rounding error, whether the
points were collapsed or not. -/
theorem adjust_points_in_boundingRect (fl : R → R) (m : CMath R) (e : Edge R) (s d : Node R)
    (hs : e.source = some s) (hd : e.destination = some d) :
    (e.adjust m).boundingRect fl = e.boundingRect fl
      ∧ (((e.adjust m).boundingRect fl).left ≤ (e.adjust m).sourcePoint.x
        ∧ ((e.adjust m).boundingRect fl).top ≤ (e.adjust m).sourcePoint.y
        ∧ ((e.adjust m).boundingRect fl).left ≤ (e.adjust m).destinationPoint.x
        ∧ ((e.adjust m).boundingRect fl).top ≤ (e.adjust m).destinationPoint.y)
      ∧ (ExactSpan fl (min s.pos.x d.pos.x) (max s.pos.x d.pos.x) →
          ExactSpan fl (min s.pos.y d.pos.y) (max s.pos.y d.pos.y) →
          ((e.adjust m).boundingRect fl).Covers fl (e.adjust m).sourcePoint
            ∧ ((e.adjust m).boundingRect fl).Covers fl (e.adjust m).destinationPoint) := by
  have hs2 : (e.adjust m).source = some s := by rw [(adjust_nodes m e).1, hs]
  have hd2 : (e.adjust m).destination = some d := by rw [(adjust_nodes m e).2, hd]
  rw [boundingRect_of_nodes fl _ s d hs2 hd2, boundingRect_of_nodes fl e s d hs hd]
  refine ⟨rfl, ?_⟩
  rcases le_or_lt ((QLineF.mk s.pos d.pos).length m) 20 with h | h
  · rw [adjust_of_near m e s d hs hd h]
    exact ⟨⟨min_le_left _ _, min_le_left _ _, min_le_left _ _, min_le_left _ _⟩,
      fun hx hy => ⟨(minmax_box_covers fl s.pos d.pos hx hy).1,
        (minmax_box_covers fl s.pos d.pos hx hy).1⟩⟩
  · rw [adjust_of_far m e s d hs hd h]
    exact ⟨⟨min_le_left _ _, min_le_left _ _, min_le_right _ _, min_le_right _ _⟩,
      fun hx hy => ⟨(minmax_box_covers fl s.pos d.pos hx hy).1,
        (minmax_box_covers fl s.pos d.pos hx hy).2⟩⟩

/-- The edge built by the constructor for nodes further than 20 apart caches the
two node positions. -/
theorem create_of_far (m : CMath R) (s d : Node R) (c : Int)
    (h : 20 < (QLineF.mk s.pos d.pos).length m) :
    Edge.create m s d c = ⟨c, some s, some d, false, s.pos, d.pos, Edge.constructorPen⟩ :=
  adjust_of_far m (Edge.initial s d c) s d rfl rfl h

end GeometryTheorems

section RoundingTheorems

variable {R : Type} [LinearOrderedField R] [FloorRing R]

/-! ## Rounding to a `double` -/

/-- A value less than one half away from an integer rounds to that integer. -/
theorem roundHalfEven_of_near (r : R) (n : Int) (h : |r - n| < 1 / 2) :
    roundHalfEven r = n := by
  have h' := abs_lt.mp h
  unfold roundHalfEven
  rcases le_or_lt (n : R) r with hle | hlt
  · have hf : ⌊r⌋ = n := by
      rw [Int.floor_eq_iff]
      constructor
      · exact hle
      · linarith [h'.2]
    simp only [hf]
    rw [if_pos h'.2]
  · have hf : ⌊r⌋ = n - 1 := by
      rw [Int.floor_eq_iff]
      push_cast
      constructor <;> linarith [h'.1]
    simp only [hf]
    push_cast
    have h1 : ¬ (r - ((n : R) - 1) < 1 / 2) := by
      rw [not_lt]
      linarith [h'.1]
    have h2 : 1 / 2 < r - ((n : R) - 1) := by linarith [h'.1]
    rw [if_neg h1, if_pos h2]
    ring

/-- The binade of a value between two consecutive powers of two. -/
theorem binade_eq (q : R) (e : Int) (hlo : (2 : R) ^ e ≤ |q|)
    (hhi : |q| < (2 : R) ^ (e + 1)) : Int.log 2 |q| = e := by
  have hpos : (0 : R) < |q| := lt_of_lt_of_le (by positivity) hlo
  have h1 : e ≤ Int.log 2 |q| := by
    rw [← Int.zpow_le_iff_le_log (by norm_num) hpos]
    exact_mod_cast hlo
  have h2 : Int.log 2 |q| < e + 1 := by
    rw [← Int.lt_zpow_iff_log_lt (by norm_num) hpos]
    exact_mod_cast hhi
  omega

/-- Value of `roundDouble` for a result in the binade `e` whose quotient by the
spacing is less than one half away from the integer `n`. -/
theorem roundDouble_eq (q : R) (e n : Int) (he : -1022 ≤ e)
    (hlo : (2 : R) ^ e ≤ |q|) (hhi : |q| < (2 : R) ^ (e + 1))
    (hn : |q / (2 : R) ^ (e - 52) - n| < 1 / 2) :
    roundDouble q = n * (2 : R) ^ (e - 52) := by
  unfold roundDouble
  simp only [binade_eq q e hlo hhi, max_eq_left he]
  rw [roundHalfEven_of_near _ n hn]

end RoundingTheorems

section RectangleSamples

/-! ## The bounding rectangle at concrete inputs -/

/-- The literal 0.1 rounds to `tenthDouble`. -/
theorem roundDouble_tenth : roundDouble (1 / 10 : ℝ) = tenthDouble := by
  rw [roundDouble_eq _ (-4) 7205759403792794 (by norm_num) (by norm_num [abs_of_pos])
    (by norm_num [abs_of_pos]) (by norm_num [abs_lt])]
  norm_num [tenthDouble]

/-- The numbers 2, 3, 5 and 9 are `double` values. -/
theorem roundDouble_small_rat :
    roundDouble (2 : ℚ) = 2 ∧ roundDouble (3 : ℚ) = 3 ∧ roundDouble (5 : ℚ) = 5
      ∧ roundDouble (9 : ℚ) = 9 := by
  refine ⟨?_, ?_, ?_, ?_⟩
  · rw [roundDouble_eq _ 1 (2 * 2 ^ 51) (by norm_num) (by norm_num) (by norm_num)
      (by norm_num)]
    norm_num
  · rw [roundDouble_eq _ 1 (3 * 2 ^ 51) (by norm_num) (by norm_num) (by norm_num)
      (by norm_num)]
    norm_num
  · rw [roundDouble_eq _ 2 (5 * 2 ^ 50) (by norm_num) (by norm_num) (by norm_num)
      (by norm_num)]
    norm_num
  · rw [roundDouble_eq _ 3 (9 * 2 ^ 49) (by norm_num) (by norm_num) (by norm_num)
      (by norm_num)]
    norm_num

/-- The numbers 12, 16, 30 and 40 are `double` values. -/
theorem roundDouble_small_real :
    roundDouble (12 : ℝ) = 12 ∧ roundDouble (16 : ℝ) = 16 ∧ roundDouble (30 : ℝ) = 30
      ∧ roundDouble (40 : ℝ) = 40 := by
  refine ⟨?_, ?_, ?_, ?_⟩
  · rw [roundDouble_eq _ 3 (12 * 2 ^ 49) (by norm_num) (by norm_num) (by norm_num)
      (by norm_num)]
    norm_num
  · rw [roundDouble_eq _ 4 (16 * 2 ^ 48) (by norm_num) (by norm_num) (by norm_num)
      (by norm_num)]
    norm_num
  · rw [roundDouble_eq _ 4 (30 * 2 ^ 48) (by norm_num) (by norm_num) (by norm_num)
      (by norm_num)]
    norm_num
  · rw [roundDouble_eq _ 5 (40 * 2 ^ 47) (by norm_num) (by norm_num) (by norm_num)
      (by norm_num)]
    norm_num

/-- The extent from 0 to a `double` `v` is exact. -/
theorem exactSpan_from_zero (v : ℝ) (h : roundDouble v = v) : ExactSpan roundDouble 0 v := by
  unfold ExactSpan
  rw [sub_zero]
  exact ⟨h, h⟩

/-- The width stored for nodes with the x coordinates -10 and 0.1: the sum
10 + 0.1 rounded to a `double`. -/
theorem rounded_width : roundDouble (tenthDouble - (-10)) = 5685794529555251 / 2 ^ 49 := by
  rw [roundDouble_eq _ 3 5685794529555251 (by norm_num)
    (by norm_num [tenthDouble, abs_of_pos]) (by norm_num [tenthDouble, abs_of_pos])
    (by norm_num [tenthDouble, abs_lt])]
  norm_num

/-- The right edge read back for nodes with the x coordinates -10 and 0.1: the
sum of -10 and the stored width, a `double` below 0.1. -/
theorem rounded_right :
    roundDouble (-10 + roundDouble (tenthDouble - (-10))) = 56294995342131 / 2 ^ 49 := by
  rw [rounded_width]
  rw [roundDouble_eq _ (-4) 7205759403792768 (by norm_num) (by norm_num [abs_of_pos])
    (by norm_num [abs_of_pos]) (by norm_num [abs_lt])]
  norm_num

/-- Right edge of the bounding rectangle of an edge whose nodes have the x
coordinates -10 and 0.1, in either order. -/
theorem right_of_rounding (e : Edge ℝ) (s d : Node ℝ)
    (hs : e.source = some s) (hd : e.destination = some d)
    (hlo : min s.pos.x d.pos.x = -10) (hhi : max s.pos.x d.pos.x = tenthDouble) :
    (e.boundingRect roundDouble).right roundDouble = 56294995342131 / 2 ^ 49 := by
  rw [boundingRect_of_nodes roundDouble e s d hs hd]
  simp only [QRectF.right, hlo, hhi]
  exact rounded_right

/-- The right edge 56294995342131 / 2^49 lies before 0.1. -/
theorem right_lt_tenth : (56294995342131 / 2 ^ 49 : ℝ) < tenthDouble := by
  norm_num [tenthDouble]

/-- C4, refuted: for nodes at (-10, 0) and (0.1, 30) the right edge of the
rectangle returned by `boundingRect` is 56294995342131 / 2^49
(0.09999999999999964), before the x coordinate 0.1 of the second node, so the
rectangle does not reach max x and does not cover that node position. -/
theorem boundingRect_misses_node :
    (roundingEdge.boundingRect roundDouble).right roundDouble = 56294995342131 / 2 ^ 49
      ∧ (roundingEdge.boundingRect roundDouble).right roundDouble
          < max (-10 : ℝ) tenthDouble
      ∧ ¬ (roundingEdge.boundingRect roundDouble).Covers roundDouble ⟨tenthDouble, 30⟩ := by
  have hr := right_of_rounding roundingEdge ⟨⟨-10, 0⟩⟩ ⟨⟨tenthDouble, 30⟩⟩ rfl rfl
    (by norm_num [tenthDouble]) (by norm_num [tenthDouble])
  have hlt := right_lt_tenth
  refine ⟨hr, ?_, ?_⟩
  · rw [hr, max_eq_right (by norm_num [tenthDouble])]
    exact hlt
  · intro hc
    have h2 := hc.2.1
    rw [hr] at h2
    exact absurd hlt (not_lt.mpr h2)

/-- C4 amended, at a concrete input: for nodes at (3, 4) and (1, 9) and the
rounding of `double` the bounding rectangle is the box with corner (1, 4), width
2 and height 5, and covers both node positions. -/
theorem boundingRect_min_max_witness :
    sampleEdgeQ.boundingRect roundDouble = ⟨1, 4, 2, 5⟩
      ∧ (sampleEdgeQ.boundingRect roundDouble).right roundDouble = 3
      ∧ (sampleEdgeQ.boundingRect roundDouble).bottom roundDouble = 9
      ∧ (sampleEdgeQ.boundingRect roundDouble).Covers roundDouble ⟨3, 4⟩
      ∧ (sampleEdgeQ.boundingRect roundDouble).Covers roundDouble ⟨1, 9⟩ := by
  have h := boundingRect_min_max roundDouble sampleEdgeQ ⟨⟨3, 4⟩⟩ ⟨⟨1, 9⟩⟩ rfl rfl
  have hr := roundDouble_small_rat
  have hx : ExactSpan roundDouble (min (3 : ℚ) 1) (max (3 : ℚ) 1) := by
    norm_num [ExactSpan, hr.1, hr.2.1]
  have hy : ExactSpan roundDouble (min (4 : ℚ) 9) (max (4 : ℚ) 9) := by
    norm_num [ExactSpan, hr.2.2.1, hr.2.2.2]
  have h5 := h.2.2.2.2 hx hy
  refine ⟨?_, ?_, ?_, h5.2.2.1, h5.2.2.2⟩
  · rw [h.1]
    norm_num [hr.1, hr.2.2.1]
  · rw [h5.1]
    norm_num
  · rw [h5.2.1]
    norm_num

/-- C10, refuted: for nodes at (-10, 0) and (0.1, 30) `adjust` caches the
destination point (0.1, 30), and for nodes at (0.1, 0) and (-10, 0) it collapses
both cached points onto (0.1, 0); in both cases the right edge of the rectangle
returned by `boundingRect` is 56294995342131 / 2^49, before 0.1, so the
rectangle does not cover the cached point. -/
theorem cached_point_outside_boundingRect :
    ((roundingEdge.adjust CMath.real).destinationPoint = ⟨tenthDouble, 30⟩
        ∧ ¬ ((roundingEdge.adjust CMath.real).boundingRect roundDouble).Covers roundDouble
            (roundingEdge.adjust CMath.real).destinationPoint)
      ∧ ((nearRoundingEdge.adjust CMath.real).sourcePoint = ⟨tenthDouble, 0⟩
        ∧ (nearRoundingEdge.adjust CMath.real).destinationPoint = ⟨tenthDouble, 0⟩
        ∧ ¬ ((nearRoundingEdge.adjust CMath.real).boundingRect roundDouble).Covers roundDouble
            (nearRoundingEdge.adjust CMath.real).sourcePoint) := by
  have hlt := right_lt_tenth
  have hfar : roundingEdge.adjust CMath.real
      = { roundingEdge with sourcePoint := ⟨-10, 0⟩, destinationPoint := ⟨tenthDouble, 30⟩ } :=
    adjust_of_far CMath.real roundingEdge ⟨⟨-10, 0⟩⟩ ⟨⟨tenthDouble, 30⟩⟩ rfl rfl (by
      show (20 : ℝ) < Real.sqrt ((tenthDouble - -10) * (tenthDouble - -10)
        + (30 - 0) * (30 - 0))
      rw [Real.lt_sqrt (by norm_num)]
      norm_num [tenthDouble])
  have hnear : nearRoundingEdge.adjust CMath.real
      = { nearRoundingEdge with
          sourcePoint := ⟨tenthDouble, 0⟩, destinationPoint := ⟨tenthDouble, 0⟩ } :=
    adjust_of_near CMath.real nearRoundingEdge ⟨⟨tenthDouble, 0⟩⟩ ⟨⟨-10, 0⟩⟩ rfl rfl (by
      show Real.sqrt ((-10 - tenthDouble) * (-10 - tenthDouble) + (0 - 0) * (0 - 0))
        ≤ (20 : ℝ)
      rw [Real.sqrt_le_left (by norm_num)]
      norm_num [tenthDouble])
  have hr1 := right_of_rounding (roundingEdge.adjust CMath.real)
    ⟨⟨-10, 0⟩⟩ ⟨⟨tenthDouble, 30⟩⟩ (by rw [hfar]; rfl) (by rw [hfar]; rfl)
    (by norm_num [tenthDouble]) (by norm_num [tenthDouble])
  have hr2 := right_of_rounding (nearRoundingEdge.adjust CMath.real)
    ⟨⟨tenthDouble, 0⟩⟩ ⟨⟨-10, 0⟩⟩ (by rw [hnear]; rfl) (by rw [hnear]; rfl)
    (by norm_num [tenthDouble]) (by norm_num [tenthDouble])
  refine ⟨⟨by rw [hfar], ?_⟩, ⟨by rw [hnear], by rw [hnear], ?_⟩⟩
  · intro hc
    have h2 := hc.2.1
    rw [hr1, hfar] at h2
    exact absurd hlt (not_lt.mpr h2)
  · intro hc
    have h2 := hc.2.1
    rw [hr2, hnear] at h2
    exact absurd hlt (not_lt.mpr h2)

/-- C10 amended, at concrete inputs: with the rounding of `double` the cached
points of the edge between (0, 0) and (30, 40) and of the collapsed edge between
(0, 0) and (12, 16) lie in their bounding rectangles. -/
theorem adjust_points_in_boundingRect_witness :
    (((farEdge.adjust CMath.real).boundingRect roundDouble).Covers roundDouble
          (farEdge.adjust CMath.real).sourcePoint
        ∧ ((farEdge.adjust CMath.real).boundingRect roundDouble).Covers roundDouble
            (farEdge.adjust CMath.real).destinationPoint)
      ∧ (((thresholdEdge.adjust CMath.real).boundingRect roundDouble).Covers roundDouble
            (thresholdEdge.adjust CMath.real).sourcePoint
        ∧ ((thresholdEdge.adjust CMath.real).boundingRect roundDouble).Covers roundDouble
            (thresholdEdge.adjust CMath.real).destinationPoint) := by
  have hr := roundDouble_small_real
  have h1 := adjust_points_in_boundingRect roundDouble CMath.real farEdge
    ⟨⟨0, 0⟩⟩ ⟨⟨30, 40⟩⟩ rfl rfl
  have h2 := adjust_points_in_boundingRect roundDouble CMath.real thresholdEdge
    ⟨⟨0, 0⟩⟩ ⟨⟨12, 16⟩⟩ rfl rfl
  refine ⟨h1.2.2 ?_ ?_, h2.2.2 ?_ ?_⟩
  · rw [min_eq_left (by norm_num), max_eq_right (by norm_num)]
    exact exactSpan_from_zero 30 hr.2.2.1
  · rw [min_eq_left (by norm_num), max_eq_right (by norm_num)]
    exact exactSpan_from_zero 40 hr.2.2.2
  · rw [min_eq_left (by norm_num), max_eq_right (by norm_num)]
    exact exactSpan_from_zero 12 hr.1
  · rw [min_eq_left (by norm_num), max_eq_right (by norm_num)]
    exact exactSpan_from_zero 16 hr.2.1

end RectangleSamples

section FuzzyTheorems

variable {R : Type} [LinearOrderedField R]

/-! ## Rendering -/

/-- Zero is fuzzily equal to zero. -/
theorem qFuzzyCompare_zero : qFuzzyCompare (0 : R) 0 = true := by
  simp [qFuzzyCompare]

/-- A value is fuzzily equal to zero only when it is zero. -/
theorem qFuzzyCompare_zero_iff (v : R) : qFuzzyCompare v 0 = true ↔ v = 0 := by
  constructor
  · intro h
    have h1 : |v| * 1000000000000 ≤ min |v| 0 := by simpa [qFuzzyCompare] using h
    have h2 : |v| * 1000000000000 ≤ 0 := le_trans h1 (min_le_right _ _)
    have h3 : 0 ≤ |v| := abs_nonneg v
    have h4 : |v| = 0 := by nlinarith
    exact abs_eq_zero.mp h4
  · intro h
    rw [h]
    exact qFuzzyCompare_zero

/-- For a horizontal segment whose end is to the right of its start the direction
angle is `TwoPi`, when `sqrt` inverts squaring and `acos 1 = 0`. -/
theorem directionAngle_of_right (m : CMath R)
    (hsqrt : ∀ v : R, 0 ≤ v → m.sqrt (v * v) = v) (hacos : m.acos 1 = 0)
    (line : QLineF R) (hdy : line.dy = 0) (hdx : 0 < line.dx) :
    Edge.directionAngle m line = TwoPi := by
  have hlen : line.length m = line.dx := by
    unfold QLineF.length
    rw [hdy, mul_zero, add_zero]
    exact hsqrt _ (le_of_lt hdx)
  unfold Edge.directionAngle
  simp only [hlen, hdy, ge_iff_le, le_refl, if_true]
  rw [div_self (ne_of_gt hdx), hacos, sub_zero]

/-- For a vertical segment whose end is below its start the direction angle is
`TwoPi - acos 0`. -/
theorem directionAngle_of_down (m : CMath R) (line : QLineF R)
    (hdx : line.dx = 0) (hdy : 0 < line.dy) :
    Edge.directionAngle m line = TwoPi - m.acos 0 := by
  unfold Edge.directionAngle
  simp only [hdx, zero_div, ge_iff_le, le_of_lt hdy, if_true]

/-- C5, amended: the direction angle computed by the renderer is `TwoPi` (a full
turn, 2 * Pi) for every horizontal edge whose destination is to the right of its
source (dy = 0, dx > 0), and is `TwoPi - acos 0` (three quarters of a turn) for
every edge whose destination is directly below its source (dx = 0, dy > 0);
here `sqrt` inverts squaring and `acos 1 = 0`. -/
theorem directionAngle_on_axes (m : CMath R)
    (hsqrt : ∀ v : R, 0 ≤ v → m.sqrt (v * v) = v) (hacos : m.acos 1 = 0)
    (line : QLineF R) :
    (line.dy = 0 → 0 < line.dx → Edge.directionAngle m line = TwoPi)
      ∧ (line.dx = 0 → 0 < line.dy → Edge.directionAngle m line = TwoPi - m.acos 0) :=
  ⟨directionAngle_of_right m hsqrt hacos line, directionAngle_of_down m line⟩

end FuzzyTheorems

section PaintTheorems

variable {R : Type} [LinearOrderedField R] [FloorRing R]

/-- With both nodes present, a cached segment whose length is not fuzzily equal
to zero and coordinate sums that convert to `int`, `paint` issues the pen, the
line, the label and, for an oriented graph, the brush and the polygon. -/
theorem paint_of_visible (m : CMath R) (isOriented : Bool) (e : Edge R) (s d : Node R)
    (hs : e.source = some s) (hd : e.destination = some d)
    (h : qFuzzyCompare ((QLineF.mk e.sourcePoint e.destinationPoint).length m) 0 = false)
    (x y : Int)
    (hx : qrealToInt (e.sourcePoint.x + e.destinationPoint.x) = some x)
    (hy : qrealToInt (e.sourcePoint.y + e.destinationPoint.y) = some y) :
    e.paint m isOriented =
      some ([if !e.isInTree then PaintCmd.setPen e.pen else PaintCmd.setPen Edge.treePen,
          PaintCmd.drawLine ⟨e.sourcePoint, e.destinationPoint⟩,
          PaintCmd.drawText ⟨((Int.tdiv x 2 : Int) : R), ((Int.tdiv y 2 : Int) : R)⟩
            (toString e.cost)]
        ++ if isOriented then
            [PaintCmd.setBrush GlobalColor.yellow, PaintCmd.drawPolygon (e.arrowPolygon m)]
          else []) := by
  simp [Edge.paint, hs, hd, h, QLineF.x1, QLineF.x2, QLineF.y1, QLineF.y2, hx, hy]

/-- C7, amended: for an oriented graph and a visible edge (coordinate sums that
convert to `int`), the arrowhead polygon drawn is the destination endpoint, the
wing tip `destinationPoint + (15 sin(angle - Pi/3), 15 cos(angle - Pi/3))` and
the wing tip
`destinationPoint + (15 sin(angle - Pi + Pi/3), 15 cos(angle - Pi + Pi/3))`,
where `angle` is the computed direction angle and `Pi` the constant of the
source; it is filled with the yellow brush. -/
theorem paint_arrowhead (m : CMath R) (e : Edge R) (s d : Node R)
    (hs : e.source = some s) (hd : e.destination = some d)
    (hvisible :
      qFuzzyCompare ((QLineF.mk e.sourcePoint e.destinationPoint).length m) 0 = false)
    (x y : Int)
    (hx : qrealToInt (e.sourcePoint.x + e.destinationPoint.x) = some x)
    (hy : qrealToInt (e.sourcePoint.y + e.destinationPoint.y) = some y) :
    e.paint m true =
      some [if !e.isInTree then PaintCmd.setPen e.pen else PaintCmd.setPen Edge.treePen,
        PaintCmd.drawLine ⟨e.sourcePoint, e.destinationPoint⟩,
        PaintCmd.drawText ⟨((Int.tdiv x 2 : Int) : R), ((Int.tdiv y 2 : Int) : R)⟩
          (toString e.cost),
        PaintCmd.setBrush GlobalColor.yellow,
        PaintCmd.drawPolygon
          [e.destinationPoint,
            e.destinationPoint +
              ⟨15 * m.sin (Edge.directionAngle m ⟨e.sourcePoint, e.destinationPoint⟩ - Pi / 3),
                15 * m.cos (Edge.directionAngle m ⟨e.sourcePoint, e.destinationPoint⟩ - Pi / 3)⟩,
            e.destinationPoint +
              ⟨15 * m.sin
                  (Edge.directionAngle m ⟨e.sourcePoint, e.destinationPoint⟩ - Pi + Pi / 3),
                15 * m.cos
                  (Edge.directionAngle m ⟨e.sourcePoint, e.destinationPoint⟩ - Pi + Pi / 3)⟩]] := by
  rw [paint_of_visible m true e s d hs hd hvisible x y hx hy]
  simp [Edge.arrowPolygon, Edge.destArrowP1, Edge.destArrowP2, Edge.arrowSize, mul_comm]

/-- Every pen that `paint` sets has width 2 when the edge carries the pen of the
constructor. -/
theorem paint_pen_width (m : CMath R) (isOriented : Bool) (e : Edge R)
    (hpen : e.pen = Edge.constructorPen) (cmds : List (PaintCmd R)) (pen : QPen R)
    (h : e.paint m isOriented = some cmds) (hmem : PaintCmd.setPen pen ∈ cmds) :
    pen.width = 2 := by
  unfold Edge.paint at h
  cases hs : e.source with
  | none =>
    simp only [hs, Option.some.injEq] at h
    subst h
    simp at hmem
  | some s =>
    cases hd : e.destination with
    | none =>
      simp only [hs, hd, Option.some.injEq] at h
      subst h
      simp at hmem
    | some d =>
      cases hq : qFuzzyCompare ((QLineF.mk e.sourcePoint e.destinationPoint).length m) 0 with
      | true =>
        simp only [hs, hd, hq, if_true, Option.some.injEq] at h
        subst h
        simp at hmem
      | false =>
        cases hx : qrealToInt ((QLineF.mk e.sourcePoint e.destinationPoint).x1
            + (QLineF.mk e.sourcePoint e.destinationPoint).x2) with
        | none => simp [hs, hd, hq, hx] at h
        | some x =>
          cases hy : qrealToInt ((QLineF.mk e.sourcePoint e.destinationPoint).y1
              + (QLineF.mk e.sourcePoint e.destinationPoint).y2) with
          | none => simp [hs, hd, hq, hx, hy] at h
          | some y =>
            simp only [hs, hd, hq, hx, hy, Bool.false_eq_true, if_false, Option.some.injEq] at h
            subst h
            cases isOriented <;> cases ht : e.isInTree <;>
              simp [ht] at hmem <;> subst hmem <;>
              simp [hpen, Edge.constructorPen, Edge.treePen, Edge.lineWidth]

/-- C6: for an edge that carries the pen of the constructor, the painter calls
with `isInTree` set are the calls with `isInTree` cleared, except for the colour
of the pen (dark green instead of black); the pen has width 2 in both. -/
theorem paint_isInTree_changes_stroke_only (m : CMath R) (isOriented : Bool) (e : Edge R)
    (hpen : e.pen = Edge.constructorPen) :
    (e.setInTree true).paint m isOriented
        = ((e.setInTree false).paint m isOriented).map
            (List.map (PaintCmd.withStroke GlobalColor.darkGreen))
      ∧ (e.setInTree false).paint m isOriented
        = ((e.setInTree true).paint m isOriented).map
            (List.map (PaintCmd.withStroke GlobalColor.black))
      ∧ ∀ (inTree : Bool) (cmds : List (PaintCmd R)) (pen : QPen R),
          (e.setInTree inTree).paint m isOriented = some cmds →
          PaintCmd.setPen pen ∈ cmds → pen.width = 2 := by
  refine ⟨?_, ?_, fun inTree cmds pen h hmem =>
    paint_pen_width m isOriented (e.setInTree inTree) hpen cmds pen h hmem⟩
  all_goals
    unfold Edge.paint Edge.setInTree
    cases hs : e.source with
    | none => simp
    | some s =>
      cases hd : e.destination with
      | none => simp
      | some d =>
        cases hq : qFuzzyCompare ((QLineF.mk e.sourcePoint e.destinationPoint).length m) 0 with
        | true => simp [hq]
        | false =>
          cases hx : qrealToInt ((QLineF.mk e.sourcePoint e.destinationPoint).x1
              + (QLineF.mk e.sourcePoint e.destinationPoint).x2) with
          | none => simp [hq, hx]
          | some x =>
            cases hy : qrealToInt ((QLineF.mk e.sourcePoint e.destinationPoint).y1
                + (QLineF.mk e.sourcePoint e.destinationPoint).y2) with
            | none => simp [hq, hx, hy]
            | some y =>
              cases isOriented <;>
                simp [hq, hx, hy, hpen, PaintCmd.withStroke, Edge.constructorPen, Edge.treePen,
                  Edge.lineWidth, Edge.arrowPolygon]

end PaintTheorems

section SampleTheorems

/-! ## The sample edges -/

/-- State of the sample edge from (0, 0) to (30, 0) after its construction. -/
theorem rightEdge_state :
    rightEdge = ⟨1, some ⟨⟨0, 0⟩⟩, some ⟨⟨30, 0⟩⟩, false, ⟨0, 0⟩, ⟨30, 0⟩, Edge.constructorPen⟩ :=
  create_of_far CMath.real ⟨⟨0, 0⟩⟩ ⟨⟨30, 0⟩⟩ 1 (by
    show (20 : ℝ) < Real.sqrt ((30 - 0) * (30 - 0) + (0 - 0) * (0 - 0))
    rw [Real.lt_sqrt (by norm_num)]
    norm_num)

/-- A real segment with distinct x coordinates has a length that is not fuzzily
equal to zero. -/
theorem visible_of_dx_ne_zero (l : QLineF ℝ) (h : l.dx ≠ 0) :
    qFuzzyCompare (l.length CMath.real) 0 = false := by
  rw [Bool.eq_false_iff]
  intro hq
  have h0 : Real.sqrt (l.dx * l.dx + l.dy * l.dy) = 0 := (qFuzzyCompare_zero_iff _).mp hq
  have h1 : 0 < l.dx * l.dx + l.dy * l.dy := by
    have := mul_self_pos.mpr h
    nlinarith [mul_self_nonneg l.dy]
  exact absurd h0 (Real.sqrt_ne_zero'.mpr h1)

/-- C6, at a concrete input: the constructed edge from (0, 0) to (30, 0), in an
oriented graph. -/
theorem paint_isInTree_changes_stroke_only_witness :
    (rightEdge.setInTree true).paint CMath.real true
        = ((rightEdge.setInTree false).paint CMath.real true).map
            (List.map (PaintCmd.withStroke GlobalColor.darkGreen))
      ∧ (rightEdge.setInTree false).paint CMath.real true
        = ((rightEdge.setInTree true).paint CMath.real true).map
            (List.map (PaintCmd.withStroke GlobalColor.black)) :=
  have h := paint_isInTree_changes_stroke_only CMath.real true rightEdge
    (by rw [rightEdge_state])
  ⟨h.1, h.2.1⟩

/-- The constant `Pi` of the source lies strictly between 3.141592 and 3.141593. -/
theorem Pi_bounds : (3.141592 : ℝ) < Pi ∧ (Pi : ℝ) < 3.141593 := by
  constructor <;> norm_num [Pi]

/-- Direction angle of the horizontal sample segment from (0, 0) to (30, 0). -/
theorem directionAngle_right_sample :
    Edge.directionAngle CMath.real ⟨⟨0, 0⟩, ⟨30, 0⟩⟩ = TwoPi :=
  directionAngle_of_right CMath.real (fun _ hv => Real.sqrt_mul_self hv) Real.arccos_one _
    (by norm_num [QLineF.dy]) (by norm_num [QLineF.dx])

/-- Direction angle of the vertical sample segment from (0, 0) to (0, 30). -/
theorem directionAngle_down_sample :
    Edge.directionAngle CMath.real ⟨⟨0, 0⟩, ⟨0, 30⟩⟩ = TwoPi - Real.pi / 2 := by
  rw [directionAngle_of_down CMath.real _ (by norm_num [QLineF.dx]) (by norm_num [QLineF.dy])]
  show TwoPi - Real.arccos 0 = TwoPi - Real.pi / 2
  rw [Real.arccos_zero]

/-- C5, refuted: with the real `sqrt` and `acos` the direction angle of the
segment from (0, 0) to (30, 0) (dy = 0, dx > 0) is `TwoPi`, not 0, and the
direction angle of the segment from (0, 0) to (0, 30) (dx = 0, dy > 0) is
`TwoPi - π/2`, which is neither π nor the constant `Pi`. -/
theorem directionAngle_not_zero_nor_pi :
    Edge.directionAngle CMath.real ⟨⟨0, 0⟩, ⟨30, 0⟩⟩ ≠ 0
      ∧ Edge.directionAngle CMath.real ⟨⟨0, 0⟩, ⟨0, 30⟩⟩ ≠ Real.pi
      ∧ Edge.directionAngle CMath.real ⟨⟨0, 0⟩, ⟨0, 30⟩⟩ ≠ Pi := by
  have hP := Pi_bounds
  have h1 := Real.pi_gt_d6
  have h2 := Real.pi_lt_d6
  have hT : (TwoPi : ℝ) = 2 * Pi := by norm_num [TwoPi]
  rw [directionAngle_right_sample, directionAngle_down_sample, hT]
  refine ⟨?_, ?_, ?_⟩ <;> intro h <;> norm_num at h1 h2 hP <;> linarith [hP.1, hP.2]

/-- C5 amended, at concrete inputs: the segments from (0, 0) to (30, 0) and from
(0, 0) to (0, 30), with the real `sqrt` and `acos`. -/
theorem directionAngle_on_axes_witness :
    Edge.directionAngle CMath.real ⟨⟨0, 0⟩, ⟨30, 0⟩⟩ = TwoPi
      ∧ Edge.directionAngle CMath.real ⟨⟨0, 0⟩, ⟨0, 30⟩⟩ = TwoPi - CMath.real.acos 0 :=
  ⟨(directionAngle_on_axes CMath.real (fun _ hv => Real.sqrt_mul_self hv) Real.arccos_one
      ⟨⟨0, 0⟩, ⟨30, 0⟩⟩).1 (by norm_num [QLineF.dy]) (by norm_num [QLineF.dx]),
    (directionAngle_on_axes CMath.real (fun _ hv => Real.sqrt_mul_self hv) Real.arccos_one
      ⟨⟨0, 0⟩, ⟨0, 30⟩⟩).2 (by norm_num [QLineF.dx]) (by norm_num [QLineF.dy])⟩

/-- Painter calls for the constructed edge from (0, 0) to (30, 0) in an oriented
graph. -/
theorem rightEdge_paint :
    rightEdge.paint CMath.real true
      = some [PaintCmd.setPen Edge.constructorPen,
          PaintCmd.drawLine ⟨⟨0, 0⟩, ⟨30, 0⟩⟩,
          PaintCmd.drawText ⟨15, 0⟩ "1",
          PaintCmd.setBrush GlobalColor.yellow,
          PaintCmd.drawPolygon
            [⟨30, 0⟩, Edge.destArrowP1 CMath.real ⟨30, 0⟩ TwoPi,
              Edge.destArrowP2 CMath.real ⟨30, 0⟩ TwoPi]] := by
  rw [rightEdge_state]
  rw [paint_of_visible CMath.real true _ ⟨⟨0, 0⟩⟩ ⟨⟨30, 0⟩⟩ rfl rfl
    (visible_of_dx_ne_zero _ (by norm_num [QLineF.dx])) 30 0
    (by simp [qrealToInt, INT_MIN, INT_MAX]) (by simp [qrealToInt, INT_MIN, INT_MAX])]
  have h15 : Int.tdiv 30 2 = 15 := by decide
  have h0 : Int.tdiv 0 2 = 0 := by decide
  have hstr : toString (1 : Int) = "1" := by decide
  simp [h15, h0, hstr, Edge.arrowPolygon, directionAngle_right_sample]

/-- The sines that place the two wing tips of the horizontal sample edge are
negative: both tips lie to the left of the destination endpoint. -/
theorem sin_wings_neg :
    Real.sin (TwoPi - Pi / 3) < 0 ∧ Real.sin (TwoPi - Pi + Pi / 3) < 0 := by
  have hP := Pi_bounds
  have h1 := Real.pi_gt_d6
  have h2 := Real.pi_lt_d6
  have hT : (TwoPi : ℝ) = 2 * Pi := by norm_num [TwoPi]
  constructor <;> rw [← Real.sin_sub_two_pi] <;>
    apply Real.sin_neg_of_neg_of_neg_pi_lt <;> rw [hT] <;> norm_num at h1 h2 hP <;>
    linarith [hP.1, hP.2]

/-- The sine that would place the second wing tip at `angle + pi/3` is positive
for the horizontal sample edge, for every value of `pi` between 3.141592 and
3.141593: that tip would lie to the right of the destination endpoint. -/
theorem sin_spec_wing_pos (p : ℝ) (hlo : 3.141592 < p) (hhi : p < 3.141593) :
    0 < Real.sin (TwoPi + p / 3) := by
  have hP := Pi_bounds
  have h1 := Real.pi_gt_d6
  have h2 := Real.pi_lt_d6
  have hT : (TwoPi : ℝ) = 2 * Pi := by norm_num [TwoPi]
  rw [← Real.sin_sub_two_pi]
  apply Real.sin_pos_of_pos_of_lt_pi <;> rw [hT] <;> norm_num at h1 h2 hP hlo hhi <;>
    linarith [hP.1, hP.2]

/-- The second wing tip of the specification is no vertex of the polygon drawn
for the horizontal sample edge, for every value of `pi` between 3.141592 and
3.141593. -/
theorem specWingTip2_not_vertex (p : ℝ) (hlo : 3.141592 < p) (hhi : p < 3.141593) :
    specWingTip2 CMath.real p rightEdge
      ∉ [⟨30, 0⟩, Edge.destArrowP1 CMath.real ⟨30, 0⟩ TwoPi,
          Edge.destArrowP2 CMath.real ⟨30, 0⟩ TwoPi] := by
  have hpos := sin_spec_wing_pos p hlo hhi
  have hneg := sin_wings_neg
  have hx : (specWingTip2 CMath.real p rightEdge).x = 30 + 15 * Real.sin (TwoPi + p / 3) := by
    rw [rightEdge_state]
    simp only [specWingTip2, directionAngle_right_sample]
    rfl
  have h1 : (Edge.destArrowP1 CMath.real ⟨30, 0⟩ TwoPi).x
      = 30 + Real.sin (TwoPi - Pi / 3) * 15 := rfl
  have h2 : (Edge.destArrowP2 CMath.real ⟨30, 0⟩ TwoPi).x
      = 30 + Real.sin (TwoPi - Pi + Pi / 3) * 15 := rfl
  intro hmem
  simp only [List.mem_cons, List.mem_singleton, List.not_mem_nil, or_false] at hmem
  rcases hmem with h | h | h
  · have := congrArg QPointF.x h
    rw [hx] at this
    simp only at this
    linarith
  · have := congrArg QPointF.x h
    rw [hx, h1] at this
    linarith [hneg.1]
  · have := congrArg QPointF.x h
    rw [hx, h2] at this
    linarith [hneg.2]

/-- No polygon drawn for the horizontal sample edge has the second wing tip of
the specification as a vertex, for every value of `pi` between 3.141592 and
3.141593. -/
theorem rightEdge_polygon_misses (p : ℝ) (hlo : 3.141592 < p) (hhi : p < 3.141593) :
    ¬ ∃ cmds pts, rightEdge.paint CMath.real true = some cmds
        ∧ PaintCmd.drawPolygon pts ∈ cmds ∧ specWingTip2 CMath.real p rightEdge ∈ pts := by
  rintro ⟨cmds, pts, hp, hmem, hv⟩
  rw [rightEdge_paint] at hp
  have hc := Option.some.inj hp
  subst hc
  simp only [List.mem_cons, List.mem_singleton, PaintCmd.drawPolygon.injEq,
    reduceCtorEq, false_or, or_false, List.not_mem_nil] at hmem
  subst hmem
  exact specWingTip2_not_vertex p hlo hhi hv

/-- C7, refuted: for the constructed edge from (0, 0) to (30, 0) in an oriented
graph, the renderer draws no polygon with the wing tips at `angle - pi/3` and
`angle + pi/3`; indeed no polygon it draws has the point
`destinationPoint + (15 sin(angle + pi/3), 15 cos(angle + pi/3))` as a vertex,
whether `pi` is read as the constant `Pi` of the source or as the number π. -/
theorem arrow_second_wing_not_as_specified :
    (¬ ∃ cmds, rightEdge.paint CMath.real true = some cmds
        ∧ PaintCmd.drawPolygon (specArrowPolygon CMath.real Pi rightEdge) ∈ cmds)
      ∧ (¬ ∃ cmds pts, rightEdge.paint CMath.real true = some cmds
        ∧ PaintCmd.drawPolygon pts ∈ cmds ∧ specWingTip2 CMath.real Pi rightEdge ∈ pts)
      ∧ (¬ ∃ cmds pts, rightEdge.paint CMath.real true = some cmds
        ∧ PaintCmd.drawPolygon pts ∈ cmds
        ∧ specWingTip2 CMath.real Real.pi rightEdge ∈ pts) := by
  refine ⟨?_, rightEdge_polygon_misses Pi Pi_bounds.1 Pi_bounds.2,
    rightEdge_polygon_misses Real.pi Real.pi_gt_d6 Real.pi_lt_d6⟩
  rintro ⟨cmds, hp, hmem⟩
  exact rightEdge_polygon_misses Pi Pi_bounds.1 Pi_bounds.2
    ⟨cmds, _, hp, hmem, by simp [specArrowPolygon]⟩

/-- C7 amended, at a concrete input: the constructed edge from (0, 0) to
(30, 0). -/
theorem paint_arrowhead_witness :
    rightEdge.paint CMath.real true =
      some [if !rightEdge.isInTree then PaintCmd.setPen rightEdge.pen
          else PaintCmd.setPen Edge.treePen,
        PaintCmd.drawLine ⟨rightEdge.sourcePoint, rightEdge.destinationPoint⟩,
        PaintCmd.drawText ⟨((Int.tdiv 30 2 : Int) : ℝ), ((Int.tdiv 0 2 : Int) : ℝ)⟩
          (toString rightEdge.cost),
        PaintCmd.setBrush GlobalColor.yellow,
        PaintCmd.drawPolygon
          [rightEdge.destinationPoint,
            rightEdge.destinationPoint +
              ⟨15 * Real.sin (Edge.directionAngle CMath.real
                    ⟨rightEdge.sourcePoint, rightEdge.destinationPoint⟩ - Pi / 3),
                15 * Real.cos (Edge.directionAngle CMath.real
                    ⟨rightEdge.sourcePoint, rightEdge.destinationPoint⟩ - Pi / 3)⟩,
            rightEdge.destinationPoint +
              ⟨15 * Real.sin (Edge.directionAngle CMath.real
                    ⟨rightEdge.sourcePoint, rightEdge.destinationPoint⟩ - Pi + Pi / 3),
                15 * Real.cos (Edge.directionAngle CMath.real
                    ⟨rightEdge.sourcePoint, rightEdge.destinationPoint⟩ - Pi + Pi / 3)⟩]] :=
  paint_arrowhead CMath.real rightEdge ⟨⟨0, 0⟩⟩ ⟨⟨30, 0⟩⟩
    (by rw [rightEdge_state]) (by rw [rightEdge_state])
    (by rw [rightEdge_state]; exact visible_of_dx_ne_zero _ (by norm_num [QLineF.dx]))
    30 0
    (by rw [rightEdge_state]; simp [qrealToInt, INT_MIN, INT_MAX])
    (by rw [rightEdge_state]; simp [qrealToInt, INT_MIN, INT_MAX])

end SampleTheorems

end GraphEditor
